import Mathlib

/-!
Verification of the IMathics Jupyter kernel adapter (`imathics/kernel.py`).

The development shallowly embeds the two core pieces of the adapter:

* `parse_lines` (kernel.py lines 24-62), the multi-line statement
  accumulator, embedded as `runLines` / `parseLines`.  The external
  Mathics parser is an opaque collaborator; it is represented by an
  oracle parameter.  Crucially, the oracle receives exactly the value
  the source hands to `SingleLineFeeder` at line 49, namely the full
  list `lines` produced by `splitlines`, not the accumulated buffer
  `query`.  Each state also records, for every parse attempt, the pair
  (value of `query` at the attempt, argument given to the parser), so
  that theorems can talk about what the parser is actually asked to
  parse.
* `find_symbol_name` (kernel.py lines 319-353), the cursor-relative
  symbol resolver, embedded as `resolveLoop` / `findSymbolName` over a
  tokenizer.  The tokenizer itself lives in the external `mathics`
  package; it is modelled from the spec (see `nextTok`).

The protocol handlers `do_is_complete`, `do_execute`, `do_inspect` and
`do_complete` are embedded on top of these.
-/

namespace IMathics

/-- Outcome of one call to the external parser `parse(feeder, definitions)`
as observed by `parse_lines`: a successful parse returning an optional
expression, an `IncompleteSyntaxError` carrying its position, or a hard
`TranslateError` (e.g. `InvalidSyntaxError`/`ScanError`), which
`parse_lines` does not catch. -/
inductive ParseResult (Stmt : Type) where
  | success : Option Stmt → ParseResult Stmt
  | incomplete : Int → ParseResult Stmt
  | invalid : ParseResult Stmt
deriving DecidableEq

/-- Terminal outcome of running the `parse_lines` generator to the end:
it stops normally (`raise StopIteration` under the Python 2 semantics the
package targets, see setup.py classifiers), re-raises a pending
`IncompleteSyntaxError`, or propagates a hard `TranslateError` from the
parser. -/
inductive Outcome where
  | ended : Outcome
  | incompleteErr : Int → Outcome
  | invalidErr : Outcome
deriving DecidableEq

/-- Loop state of `parse_lines`: the accumulated buffer `query`, the
pending `incomplete_exc` (its position), the statements yielded so far,
and an observation trace recording for each parse attempt the pair
(value of `query` at the attempt, argument passed to the parser). -/
structure AccState (Stmt : Type) where
  query : String
  incompleteExc : Option Int
  yielded : List Stmt
  calls : List (String × List String)
deriving DecidableEq

/-- Helper for `splitlines`: split a character list at newline
characters, producing one part per segment (n separators give n+1
parts). -/
def splitAux (acc : List Char) : List Char → List String
  | [] => [String.mk acc.reverse]
  | c :: cs =>
    if c = '\n' then String.mk acc.reverse :: splitAux [] cs
    else splitAux (c :: acc) cs

/-- Python's `str.splitlines()` restricted to `'\n'` terminators: the
empty string gives no lines, and a trailing newline does not create a
trailing empty line. -/
def splitlines (s : String) : List String :=
  if s.data.isEmpty then []
  else if s.data.getLast? = some '\n' then (splitAux [] s.data).dropLast
  else splitAux [] s.data

/-- Python's `query.endswith('\\')`: the last character is a backslash. -/
def endsBackslash (q : String) : Bool :=
  q.data.getLast? = some '\\'

/-- Python's `query.rstrip('\\')`: remove every trailing backslash. -/
def rstripBS (q : String) : String :=
  String.mk (q.data.reverse.dropWhile (fun c => c = '\\')).reverse

/-- The loop of `parse_lines` (kernel.py lines 38-62).  `allLines` is the
list `lines` after `splitlines`; the parser oracle `p` receives exactly
what the source passes to it at line 49, namely `allLines` itself (the
content of `SingleLineFeeder(lines)`), while the buffer `query` is only
consulted for the backslash continuation check.  An empty line appends a
single space to the buffer; a buffer ending in a backslash is stripped
of its trailing backslashes and records an `IncompleteSyntaxError` at
`len(query)-1`; otherwise a parse is attempted: an incomplete result is
recorded and the loop continues, a hard failure aborts the generator,
and a success yields the optional expression and resets the state.
After the last line a pending incomplete error is re-raised, otherwise
the generator stops cleanly. -/
def runLines {Stmt : Type} (p : List String → ParseResult Stmt)
    (allLines : List String) (st : AccState Stmt) :
    List String → AccState Stmt × Outcome
  | [] =>
    (st, match st.incompleteExc with
      | some pos => Outcome.incompleteErr pos
      | none => Outcome.ended)
  | line :: rest =>
    if line = "" then
      runLines p allLines { st with query := st.query ++ " " } rest
    else
      let q := st.query ++ line
      if endsBackslash q then
        let q' := rstripBS q
        runLines p allLines
          { st with query := q', incompleteExc := some ((q'.length : Int) - 1) } rest
      else
        let st' := { st with query := q, calls := st.calls ++ [(q, allLines)] }
        match p allLines with
        | ParseResult.incomplete pos =>
          runLines p allLines { st' with incompleteExc := some pos } rest
        | ParseResult.invalid => (st', Outcome.invalidErr)
        | ParseResult.success none =>
          runLines p allLines { st' with query := "", incompleteExc := none } rest
        | ParseResult.success (some e) =>
          runLines p allLines
            { st' with yielded := st'.yielded ++ [e], query := "", incompleteExc := none } rest

/-- `parse_lines(lines, definitions)` run to exhaustion on input text
`input`, with the external parser abstracted by `p`. -/
def parseLines {Stmt : Type} (p : List String → ParseResult Stmt)
    (input : String) : AccState Stmt × Outcome :=
  runLines p (splitlines input) ⟨"", none, [], []⟩ (splitlines input)

/-- `MathicsKernel.do_is_complete` (kernel.py lines 308-317): force the
generator with `list(...)`; an escaping `IncompleteSyntaxError` gives
status `incomplete`, any other `TranslateError` gives `invalid`, and
normal exhaustion gives `complete`. -/
def doIsComplete {Stmt : Type} (p : List String → ParseResult Stmt)
    (input : String) : String :=
  match (parseLines p input).2 with
  | Outcome.incompleteErr _ => "incomplete"
  | Outcome.invalidErr => "invalid"
  | Outcome.ended => "complete"

/-- A parser oracle that always succeeds and produces a statement. -/
def oracleYield : List String → ParseResult String :=
  fun _ => ParseResult.success (some "X")

/-- A parser oracle that always reports incomplete syntax at offset 7. -/
def oracleIncomplete : List String → ParseResult String :=
  fun _ => ParseResult.incomplete 7

/-! ### The tokenizer, modelled from the spec

The `Tokeniser` consumed by `find_symbol_name` lives in the external
`mathics` package.  It is modelled here from the spec: it converts
source text into typed tokens with position information, skipping
blanks before each token; its categories include `Symbol` (identifier
letters and digits, possibly namespace-qualified with a backtick),
numbers, operator punctuation, a lone namespace separator, and a
distinguished end-of-input token; an invalid character raises a scan
error and is skipped as a single character so that the next call
retries one position further on. -/

/-- The backtick character, Mathics' namespace separator. -/
def backtickChar : Char := Char.ofNat 96

/-- Characters that may continue a symbol identifier. -/
def isSymChar (c : Char) : Bool := c.isAlpha || c.isDigit

/-- Single-character operator/punctuation tokens of the modelled lexer. -/
def isOpChar (c : Char) : Bool :=
  ['+', '-', '*', '/', '[', ']', '(', ')', ',', ';', '='].contains c

/-- Number of consecutive blanks starting at `pos`. -/
def blankLen (code : List Char) (pos : Nat) : Nat :=
  ((code.drop pos).takeWhile (fun c => c = ' ')).length

/-- Position of the first non-blank character at or after `pos`. -/
def skipBlank (code : List Char) (pos : Nat) : Nat := pos + blankLen code pos

/-- Number of consecutive symbol characters starting at `pos`. -/
def alnumLen (code : List Char) (pos : Nat) : Nat :=
  ((code.drop pos).takeWhile isSymChar).length

/-- Number of consecutive digits starting at `pos`. -/
def digitLen (code : List Char) (pos : Nat) : Nat :=
  ((code.drop pos).takeWhile Char.isDigit).length

/-- End position of a symbol token starting at `pos`: consume symbol
characters, and keep going across a backtick that is immediately
followed by a letter (a namespace-qualified name such as
`System` + backtick + `Sin` forms a single token).  `fuel` bounds the
recursion; `code.length` is always enough. -/
def symEnd (code : List Char) : Nat → Nat → Nat
  | 0, pos => pos
  | fuel + 1, pos =>
    if code.getD (pos + alnumLen code pos) ' ' = backtickChar &&
        (code.getD (pos + alnumLen code pos + 1) ' ').isAlpha then
      symEnd code fuel (pos + alnumLen code pos + 1)
    else pos + alnumLen code pos

/-- A token: its category tag, literal text, and start offset. -/
structure Token where
  tag : String
  text : String
  pos : Nat
deriving DecidableEq

/-- Result of one `tokeniser.next()` call: a token together with the
tokeniser's new position, or a scan error (the tokeniser skips the
offending character). -/
inductive NextRes where
  | token : Token → Nat → NextRes
  | scanErr : Nat → NextRes
deriving DecidableEq

/-- The text of `code` between offsets `a` (inclusive) and `b`
(exclusive). -/
def mkText (code : List Char) (a b : Nat) : String :=
  String.mk ((code.drop a).take (b - a))

/-- Read the token starting exactly at `pos` (no blank skipping),
returning it with the tokenizer's new position.  At end of input the
distinguished `END` token is produced. -/
def readTok (code : List Char) (pos : Nat) : NextRes :=
  if h : pos < code.length then
    if (code.get ⟨pos, h⟩).isDigit then
      NextRes.token ⟨"Number", mkText code pos (pos + digitLen code pos), pos⟩
        (pos + digitLen code pos)
    else if (code.get ⟨pos, h⟩).isAlpha then
      NextRes.token ⟨"Symbol", mkText code pos (symEnd code code.length pos), pos⟩
        (symEnd code code.length pos)
    else if code.get ⟨pos, h⟩ = backtickChar then
      NextRes.token ⟨"sep", String.mk [code.get ⟨pos, h⟩], pos⟩ (pos + 1)
    else if isOpChar (code.get ⟨pos, h⟩) then
      NextRes.token ⟨"op", String.mk [code.get ⟨pos, h⟩], pos⟩ (pos + 1)
    else
      NextRes.scanErr (pos + 1)
  else
    NextRes.token ⟨"END", "", code.length⟩ code.length

/-- One step of the modelled tokenizer: skip blanks, then read the token
starting at the current position. -/
def nextTok (code : List Char) (pos0 : Nat) : NextRes :=
  readTok code (skipBlank code pos0)

/-- The loop of `MathicsKernel.find_symbol_name` (kernel.py lines
339-352): repeatedly call `tokeniser.next()`, skipping scan errors;
break with no symbol on the `END` token; at the first token whose end
position (`tokeniser.pos`) is at or beyond `cursor`, return its start,
end and text when it is a `Symbol`, and no symbol otherwise.  `fuel`
bounds the iteration count; `none` means the fuel ran out. -/
def resolveLoop (code : List Char) (cursor : Nat) :
    Nat → Nat → Option (Option Nat × Option Nat × Option String)
  | 0, _ => none
  | fuel + 1, pos =>
    match nextTok code pos with
    | NextRes.scanErr np => resolveLoop code cursor fuel np
    | NextRes.token t np =>
      if t.tag = "END" then some (none, none, none)
      else if cursor ≤ np then
        if t.tag = "Symbol" then some (some t.pos, some np, some t.text)
        else some (none, none, none)
      else resolveLoop code cursor fuel np

/-- The stream of (token, end position) pairs the tokenizer produces
from position `pos`, up to (not including) the `END` token, with scan
errors skipped.  `fuel` bounds the length. -/
def tokenStream (code : List Char) : Nat → Nat → List (Token × Nat)
  | 0, _ => []
  | fuel + 1, pos =>
    match nextTok code pos with
    | NextRes.scanErr np => tokenStream code fuel np
    | NextRes.token t np =>
      if t.tag = "END" then [] else (t, np) :: tokenStream code fuel np

/-- The full token stream of `code`. -/
def tokensOf (code : List Char) : List (Token × Nat) :=
  tokenStream code (code.length + 1) 0

/-- What `find_symbol_name` answers for the token it breaks on: the
triple (start, end, text) when the token is a `Symbol`, and
`(none, none, none)` when it is a non-symbol token or when no token
reached the cursor. -/
def interpBreak : Option (Token × Nat) → Option Nat × Option Nat × Option String
  | none => (none, none, none)
  | some (t, np) =>
    if t.tag = "Symbol" then (some t.pos, some np, some t.text)
    else (none, none, none)

/-- `MathicsKernel.find_symbol_name(code, cursor_pos)` (kernel.py lines
319-353).  The fuel `code.length + 1` always suffices (see the
termination theorem); the fallback is never reached. -/
def findSymbolName (code : String) (cursor : Nat) :
    Option Nat × Option Nat × Option String :=
  match resolveLoop code.data cursor (code.data.length + 1) 0 with
  | some r => r
  | none => (none, none, none)

/-! ### The protocol handlers built on the resolver -/

/-- Whether a raw symbol name contains an explicit namespace separator
(Python: a backtick in `name`). -/
def containsBacktick (s : String) : Bool := s.data.contains backtickChar

/-- The default namespace qualifier `system_prefix` of `do_complete`. -/
def sysNs : String := "System`"

/-- The namespace qualification applied by `do_inspect`/`do_complete`:
prepend the default namespace when the raw name has no separator. -/
def qualify (nm : String) : String :=
  if containsBacktick nm then nm else sysNs ++ nm

/-- Python string slicing `s[n:]` on characters. -/
def strDrop (s : String) (n : Nat) : String := String.mk (s.data.drop n)

/-- Python's `key.startswith(q)`. -/
def startsWithStr (key q : String) : Bool := q.data.isPrefixOf key.data

/-- What `do_complete` returns for an individual matching key: the key
itself if the namespace separator was explicit in the resolved name, and
the key with the synthesized `System` qualifier sliced back off
otherwise. -/
def stripIfSynth (nm key : String) : String :=
  if containsBacktick nm then key else strDrop key sysNs.length

/-- Response of `do_inspect`: the status together with the optional
`found` flag and documentation data (mime type, rendered text).  Fields
that the Python dict omits are `none`. -/
structure InspectResponse where
  status : String
  found : Option Bool
  data : Option (List (String × String))
deriving DecidableEq

/-- Response of `do_complete`: the status together with the optional
match list and replacement span.  Fields the Python dict omits are
`none`. -/
structure CompleteResponse where
  status : String
  matchList : Option (List String)
  cursorStart : Option Nat
  cursorEnd : Option Nat
deriving DecidableEq

/-- `MathicsKernel.do_inspect` (kernel.py lines 258-278).  The registry
of builtins and their rendered documentation is external; it is
abstracted as an association list `docs` from fully-qualified names to
rendered documentation text (the `Doc` rendering itself is opaque and
folded into the association).  When the resolver finds no symbol the
handler returns a bare error response. -/
def doInspect (docs : List (String × String)) (code : String)
    (cursor : Nat) : InspectResponse :=
  match findSymbolName code cursor with
  | (_, _, none) => ⟨"error", none, none⟩
  | (_, _, some nm0) =>
    match docs.lookup (qualify nm0) with
    | none => ⟨"ok", some false, some []⟩
    | some d => ⟨"ok", some true, some [("text/plain", d)]⟩

/-- `MathicsKernel.do_complete` (kernel.py lines 280-306).  `bn` is the
list of keys of the external `builtins` registry.  When the resolver
finds no symbol the handler returns a bare error response; otherwise it
qualifies the name with the default namespace when no separator is
present, filters the builtin keys by that text prefix, and strips the
synthesized qualifier back off each match. -/
def doComplete (bn : List String) (code : String) (cursor : Nat) :
    CompleteResponse :=
  match findSymbolName code cursor with
  | (_, _, none) => ⟨"error", none, none, none⟩
  | (sp, ep, some nm0) =>
    let ms := bn.filter (fun k => startsWithStr k (qualify nm0))
    let ms := if containsBacktick nm0 then ms
              else ms.map (fun m => strDrop m sysNs.length)
    ⟨"ok", some ms, sp, ep⟩

/-- Response of `do_execute`: status, optional error name and formatted
traceback, the execution count, and the constant payload and user
expression fields. -/
structure ExecuteResponse where
  status : String
  ename : Option String
  traceback : Option (List String)
  executionCount : Nat
  payload : List String
  userExpressions : List (String × String)
deriving DecidableEq

/-- `MathicsKernel.do_execute` (kernel.py lines 127-157).  The
evaluation engine is external: its run on the cell is abstracted as an
`Except` value (an uncaught exception, or an optional result), and
`traceback.format_exception` as the formatter `fmt`.  The handler
catches every engine exception, fills in status `error`, the generic
`System:exception` name and the formatted stack trace, and always sets
`execution_count` (from the engine's line counter `lineNo`) before
returning. -/
def doExecute {E R : Type} (fmt : E → List String) (lineNo : Nat)
    (engineResult : Except E (Option R)) : ExecuteResponse :=
  match engineResult with
  | Except.error e => ⟨"error", some "System:exception", some (fmt e), lineNo, [], []⟩
  | Except.ok _ => ⟨"ok", none, none, lineNo, [], []⟩

/-! ### Theorems -/

/-- After the accumulator loop has consumed all its remaining lines
without a hard parser failure, the terminal outcome is exactly
determined by the pending incomplete condition of the final state. -/
theorem runLines_outcome {Stmt : Type} (p : List String → ParseResult Stmt)
    (allLines : List String) :
    ∀ (lines : List String) (st : AccState Stmt),
      (runLines p allLines st lines).2 ≠ Outcome.invalidErr →
      (∃ pos, ((runLines p allLines st lines).1).incompleteExc = some pos ∧
          (runLines p allLines st lines).2 = Outcome.incompleteErr pos) ∨
        (((runLines p allLines st lines).1).incompleteExc = none ∧
          (runLines p allLines st lines).2 = Outcome.ended) := by
  intro lines
  induction lines with
  | nil =>
    intro st _
    cases h : st.incompleteExc with
    | none => right; simp [runLines, h]
    | some pos => left; exact ⟨pos, by simp [runLines, h]⟩
  | cons line rest ih =>
    intro st hinv
    rw [runLines] at hinv ⊢
    by_cases hempty : line = ""
    · simp only [if_pos hempty] at hinv ⊢
      exact ih _ hinv
    · simp only [if_neg hempty] at hinv ⊢
      by_cases hbs : endsBackslash (st.query ++ line)
      · simp only [if_pos hbs] at hinv ⊢
        exact ih _ hinv
      · simp only [if_neg hbs] at hinv ⊢
        cases hp : p allLines with
        | incomplete pos => simp only [hp] at hinv ⊢; exact ih _ hinv
        | invalid => simp only [hp] at hinv ⊢; exact absurd rfl hinv
        | success oe =>
          cases oe with
          | none => simp only [hp] at hinv ⊢; exact ih _ hinv
          | some e => simp only [hp] at hinv ⊢; exact ih _ hinv

/-- Claim C3: after `parse_lines` has consumed all input lines (that is,
whenever it does not abort with a hard parser failure), either an
incomplete condition is still recorded and exactly that incomplete-input
error is raised to the caller, or no incomplete condition is recorded
and the generator simply ends with no error. -/
theorem c3_end_of_input {Stmt : Type} (p : List String → ParseResult Stmt)
    (input : String)
    (h : (parseLines p input).2 ≠ Outcome.invalidErr) :
    (∃ pos, ((parseLines p input).1).incompleteExc = some pos ∧
        (parseLines p input).2 = Outcome.incompleteErr pos) ∨
      (((parseLines p input).1).incompleteExc = none ∧
        (parseLines p input).2 = Outcome.ended) :=
  runLines_outcome p (splitlines input) (splitlines input) ⟨"", none, [], []⟩ h

/-- Witness for C3: on the bracket-open input the run ends with a pending
incomplete condition, and the theorem yields the raised error. -/
theorem c3_end_of_input_witness :
    (parseLines oracleIncomplete "f[").2 ≠ Outcome.invalidErr ∧
      ((∃ pos, ((parseLines oracleIncomplete "f[").1).incompleteExc = some pos ∧
          (parseLines oracleIncomplete "f[").2 = Outcome.incompleteErr pos) ∨
        (((parseLines oracleIncomplete "f[").1).incompleteExc = none ∧
          (parseLines oracleIncomplete "f[").2 = Outcome.ended)) :=
  ⟨by decide, c3_end_of_input oracleIncomplete "f[" (by decide)⟩

/-- Claim C1 (code bug): on the two-statement input `"1\n2"` every parse
attempt receives the full line list `["1", "2"]` — the raw value that
kernel.py line 49 wraps in `SingleLineFeeder`, including the line not
yet consumed — while the accumulated buffer `query` reads `"1"` at the
first attempt and `"2"` at the second and is never handed to the
parser. -/
theorem c1_parse_argument_bug :
    parseLines oracleYield "1\n2"
      = ({ query := "", incompleteExc := none, yielded := ["X", "X"],
           calls := [("1", ["1", "2"]), ("2", ["1", "2"])] }, Outcome.ended) ∧
      (["1", "2"] : List String) ≠ ["1"] := by
  constructor
  · decide
  · decide

/-- Claim C2 (code bug): on the continuation input the first line ends in
a backslash, so the marker is stripped, the incomplete condition is
recorded at offset 3 — the last character of the shortened buffer
`"1 + "` — and no parse is attempted (second conjunct, where the input
stops after the first line and that error is re-raised).  But on the
full input the single parse attempt that follows receives the raw line
list `["1 + \\", "2"]`, backslash intact, and not the merged buffer
`"1 + 2"`, which never reaches the parser (first conjunct). -/
theorem c2_continuation_bug :
    parseLines oracleYield "1 + \\\n2"
      = ({ query := "", incompleteExc := none, yielded := ["X"],
           calls := [("1 + 2", ["1 + \\", "2"])] }, Outcome.ended) ∧
      parseLines oracleYield "1 + \\"
        = ({ query := "1 + ", incompleteExc := some 3, yielded := [],
             calls := [] }, Outcome.incompleteErr 3) := by
  constructor
  · decide
  · decide

/-- Claim C4 (code bug): on `"1\n\n2"` the blank line triggers no parse
attempt and no yield and is folded into the buffer as a single space
(visible as the leading space of the buffer `" 2"` at the second
attempt), but both parse attempts receive the full raw line list
`["1", "", "2"]` — the space-folded buffer is never parsed. -/
theorem c4_blank_line_bug :
    parseLines oracleYield "1\n\n2"
      = ({ query := "", incompleteExc := none, yielded := ["X", "X"],
           calls := [("1", ["1", "", "2"]), (" 2", ["1", "", "2"])] },
         Outcome.ended) := by
  decide

/-- Claim C6: `do_is_complete` returns exactly one of the three statuses,
with `incomplete` exactly when fully consuming `parse_lines` raises the
incomplete-syntax error, `invalid` exactly when it raises a hard parse
failure, and `complete` otherwise. -/
theorem c6_is_complete_trichotomy {Stmt : Type}
    (p : List String → ParseResult Stmt) (input : String) :
    (doIsComplete p input = "incomplete" ∨ doIsComplete p input = "invalid" ∨
       doIsComplete p input = "complete") ∧
      (doIsComplete p input = "incomplete" ↔
        ∃ pos, (parseLines p input).2 = Outcome.incompleteErr pos) ∧
      (doIsComplete p input = "invalid" ↔
        (parseLines p input).2 = Outcome.invalidErr) ∧
      (doIsComplete p input = "complete" ↔
        (parseLines p input).2 = Outcome.ended) := by
  cases h : (parseLines p input).2 with
  | ended =>
    refine ⟨Or.inr (Or.inr ?_), ?_, ?_, ?_⟩ <;>
      simp [doIsComplete, h]
  | incompleteErr pos =>
    refine ⟨Or.inl ?_, ?_, ?_, ?_⟩ <;>
      simp [doIsComplete, h]
  | invalidErr =>
    refine ⟨Or.inr (Or.inl ?_), ?_, ?_, ?_⟩ <;>
      simp [doIsComplete, h]

/-- Claim C7: every engine exception is caught at the request boundary:
the handler still returns a response, whose status is `error`, whose
traceback is the formatted stack trace, and whose execution count is
set; and on any engine outcome at all the handler returns a response
with the execution count set and a status that is `ok` or `error`. -/
theorem c7_engine_failure_response (E R : Type) (fmt : E → List String)
    (lineNo : Nat) :
    (∀ o : Except E (Option R),
        ((doExecute fmt lineNo o).status = "ok" ∨
          (doExecute fmt lineNo o).status = "error") ∧
        (doExecute fmt lineNo o).executionCount = lineNo) ∧
      (∀ e : E,
        doExecute (R := R) fmt lineNo (Except.error e)
          = ⟨"error", some "System:exception", some (fmt e), lineNo, [], []⟩) := by
  constructor
  · intro o
    cases o with
    | error e => exact ⟨Or.inr rfl, rfl⟩
    | ok r => exact ⟨Or.inl rfl, rfl⟩
  · intro e
    rfl

/-- A `takeWhile` scan never reads past the end of the list. -/
theorem takeWhileLen_le {α : Type} (p : α → Bool) (l : List α) :
    (l.takeWhile p).length ≤ l.length := by
  induction l with
  | nil => simp
  | cons a l ih =>
    rw [List.takeWhile_cons]
    cases h : p a with
    | false => simp
    | true => simpa using Nat.succ_le_succ ih

/-- A `takeWhile` scan whose first character satisfies the predicate
consumes at least that character. -/
theorem takeWhileLen_pos {p : Char → Bool} {code : List Char} {pos : Nat}
    (h : pos < code.length) (hp : p (code.get ⟨pos, h⟩) = true) :
    0 < ((code.drop pos).takeWhile p).length := by
  rw [List.drop_eq_getElem_cons h, List.takeWhile_cons]
  simp only [List.get_eq_getElem] at hp
  rw [hp]
  simp

/-- Skipping blanks never moves backwards. -/
theorem skipBlank_ge (code : List Char) (pos : Nat) : pos ≤ skipBlank code pos :=
  Nat.le_add_right _ _

/-- Skipping blanks never moves past the end of the input. -/
theorem skipBlank_le {code : List Char} {pos : Nat} (h : pos ≤ code.length) :
    skipBlank code pos ≤ code.length := by
  have hb := takeWhileLen_le (fun c => c = ' ') (code.drop pos)
  rw [List.length_drop] at hb
  unfold skipBlank blankLen
  omega

/-- A symbol scan never moves backwards. -/
theorem symEnd_ge (code : List Char) :
    ∀ fuel pos, pos ≤ symEnd code fuel pos := by
  intro fuel
  induction fuel with
  | zero => intro pos; simp [symEnd]
  | succ f ih =>
    intro pos
    rw [symEnd]
    split
    · exact le_trans (by omega) (ih (pos + alnumLen code pos + 1))
    · omega

/-- A symbol scan never moves past the end of the input. -/
theorem symEnd_le (code : List Char) :
    ∀ fuel pos, pos ≤ code.length → symEnd code fuel pos ≤ code.length := by
  intro fuel
  induction fuel with
  | zero => intro pos h; simpa [symEnd] using h
  | succ f ih =>
    intro pos h
    have ha := takeWhileLen_le isSymChar (code.drop pos)
    rw [List.length_drop] at ha
    rw [symEnd]
    split
    · rename_i hguard
      rw [Bool.and_eq_true] at hguard
      by_cases hq : pos + alnumLen code pos + 1 < code.length
      · exact ih _ (le_of_lt hq)
      · exfalso
        have : code.getD (pos + alnumLen code pos + 1) ' ' = ' ' :=
          List.getD_eq_default _ _ (by omega)
        rw [this] at hguard
        exact absurd hguard.2 (by decide)
    · unfold alnumLen
      omega

/-- A symbol scan starting on a symbol character makes strict progress. -/
theorem symEnd_gt {code : List Char} {pos : Nat} (hpos : pos < code.length)
    (hc : isSymChar (code.get ⟨pos, hpos⟩) = true) :
    ∀ fuel, 0 < fuel → pos < symEnd code fuel pos := by
  intro fuel hf
  have hlen : 0 < alnumLen code pos := takeWhileLen_pos hpos hc
  cases fuel with
  | zero => omega
  | succ f =>
    rw [symEnd]
    split
    · have := symEnd_ge code f (pos + alnumLen code pos + 1)
      omega
    · omega

/-- Case analysis on one tokenizer step from a position inside the
input: either the distinguished `END` token is produced, or a non-`END`
token or a scan error is produced whose new position makes strict
progress and stays inside the input. -/
theorem nextTok_cases (code : List Char) (pos : Nat) (hp : pos ≤ code.length) :
    nextTok code pos = NextRes.token ⟨"END", "", code.length⟩ code.length ∨
      (∃ t np, nextTok code pos = NextRes.token t np ∧ t.tag ≠ "END" ∧
        pos < np ∧ np ≤ code.length) ∨
      (∃ np, nextTok code pos = NextRes.scanErr np ∧ pos < np ∧ np ≤ code.length) := by
  have hsb := skipBlank_ge code pos
  have hsble := skipBlank_le hp
  unfold nextTok readTok
  split
  · rename_i hlt
    split
    · rename_i hdig
      refine Or.inr (Or.inl ⟨_, _, rfl, ?_, ?_, ?_⟩)
      · exact (by decide : ("Number" : String) ≠ "END")
      · have := takeWhileLen_pos hlt hdig
        unfold digitLen at *
        omega
      · have := takeWhileLen_le Char.isDigit (code.drop (skipBlank code pos))
        rw [List.length_drop] at this
        unfold digitLen
        omega
    · split
      · rename_i hal
        refine Or.inr (Or.inl ⟨_, _, rfl, ?_, ?_, ?_⟩)
        · exact (by decide : ("Symbol" : String) ≠ "END")
        · have hc : isSymChar (code.get ⟨skipBlank code pos, hlt⟩) = true := by
            unfold isSymChar
            rw [hal]
            rfl
          have := symEnd_gt hlt hc code.length (by omega)
          omega
        · exact symEnd_le code code.length _ hsble
      · split
        · refine Or.inr (Or.inl ⟨_, _, rfl, ?_, ?_, ?_⟩)
          · exact (by decide : ("sep" : String) ≠ "END")
          · omega
          · omega
        · split
          · refine Or.inr (Or.inl ⟨_, _, rfl, ?_, ?_, ?_⟩)
            · exact (by decide : ("op" : String) ≠ "END")
            · omega
            · omega
          · refine Or.inr (Or.inr ⟨_, rfl, ?_, ?_⟩)
            · omega
            · omega
  · exact Or.inl rfl

/-- The resolver loop, run with enough fuel from a position inside the
input, always finishes, and its answer is determined by the first
produced token whose end position reaches the cursor. -/
theorem resolveLoop_eq (code : List Char) (cursor : Nat) :
    ∀ fuel pos, pos ≤ code.length → code.length - pos < fuel →
      resolveLoop code cursor fuel pos
        = some (interpBreak ((tokenStream code fuel pos).find?
            (fun tn => decide (cursor ≤ tn.2)))) := by
  intro fuel
  induction fuel with
  | zero => intro pos hp hf; omega
  | succ f ih =>
    intro pos hp hf
    rcases nextTok_cases code pos hp with hend | ⟨t, np, heq, htag, hlt, hle⟩ |
      ⟨np, heq, hlt, hle⟩
    · simp [resolveLoop, tokenStream, hend, interpBreak]
    · rw [resolveLoop, tokenStream, heq]
      simp only
      rw [if_neg htag, if_neg htag]
      by_cases hc : cursor ≤ np
      · rw [if_pos hc, List.find?_cons]
        simp only [decide_eq_true_eq, hc, decide_True]
        by_cases hs : t.tag = "Symbol"
        · simp [hs, interpBreak]
        · simp [hs, interpBreak]
      · rw [if_neg hc, List.find?_cons]
        have : decide (cursor ≤ np) = false := by simp [hc]
        rw [this]
        exact ih np hle (by omega)
    · rw [resolveLoop, tokenStream, heq]
      exact ih np hle (by omega)

/-- Claim C5: `find_symbol_name` stops at the first token whose ending
position is at or beyond the cursor offset; when that token is a
`Symbol` it returns the token's start offset, the tokenizer's current
position as end offset, and the token's literal text, and in every
other case — a non-symbol token at the cursor, such as a namespace
separator, or no token end ever reaching the cursor — it returns
`(none, none, none)`.  In particular `find_symbol_name("1 + Sin", 6)`
returns the span 4..7 with name `Sin`, and
`find_symbol_name("Sin " + backtick, 4)` returns no symbol. -/
theorem c5_resolver_characterization (code : String) (cursor : Nat) :
    findSymbolName code cursor
        = interpBreak ((tokensOf code.data).find?
            (fun tn => decide (cursor ≤ tn.2))) ∧
      findSymbolName "1 + Sin" 6 = (some 4, some 7, some "Sin") ∧
      findSymbolName "Sin `" 4 = (none, none, none) := by
  refine ⟨?_, by decide, by decide⟩
  have h := resolveLoop_eq code.data cursor (code.data.length + 1) 0
    (Nat.zero_le _) (by omega)
  unfold findSymbolName tokensOf
  rw [h]

/-- Bounded work of the accumulator loop: it performs at most one parse
attempt per remaining input line. -/
theorem runLines_calls_le {Stmt : Type} (p : List String → ParseResult Stmt)
    (allLines : List String) :
    ∀ (lines : List String) (st : AccState Stmt),
      ((runLines p allLines st lines).1).calls.length ≤
        st.calls.length + lines.length := by
  intro lines
  induction lines with
  | nil => intro st; simp [runLines]
  | cons line rest ih =>
    intro st
    simp only [runLines]
    by_cases hempty : line = ""
    · rw [if_pos hempty]
      refine le_trans (ih _) ?_
      dsimp only
      simp only [List.length_cons]
      omega
    · rw [if_neg hempty]
      by_cases hbs : endsBackslash (st.query ++ line) = true
      · rw [if_pos hbs]
        refine le_trans (ih _) ?_
        simp only [List.length_cons]
        omega
      · rw [if_neg hbs]
        cases hp : p allLines with
        | incomplete pos =>
          simp only [hp]
          refine le_trans (ih _) ?_
          try dsimp only
          simp only [List.length_append, List.length_cons, List.length_nil,
            List.length_singleton]
          omega
        | invalid =>
          simp only [hp]
          try dsimp only
          simp only [List.length_append, List.length_cons, List.length_nil,
            List.length_singleton]
          omega
        | success oe =>
          cases oe with
          | none =>
            simp only [hp]
            refine le_trans (ih _) ?_
            try dsimp only
            simp only [List.length_append, List.length_cons, List.length_nil,
              List.length_singleton]
            omega
          | some e =>
            simp only [hp]
            refine le_trans (ih _) ?_
            try dsimp only
            simp only [List.length_append, List.length_cons, List.length_nil,
              List.length_singleton]
            omega

/-- Claim C9: on every finite input both core loops terminate.  The
resolver loop of `find_symbol_name` finishes within `length + 1` steps —
each step either ends the loop or makes strict progress through the
input, including on scan errors, which skip one character — and the
accumulator of `parse_lines` performs at most one parse attempt per
input line. -/
theorem c9_termination :
    (∀ (code : String) (cursor : Nat),
        (resolveLoop code.data cursor (code.data.length + 1) 0).isSome) ∧
      (∀ (Stmt : Type) (p : List String → ParseResult Stmt) (input : String),
        ((parseLines p input).1).calls.length ≤ (splitlines input).length) := by
  constructor
  · intro code cursor
    rw [resolveLoop_eq code.data cursor (code.data.length + 1) 0
      (Nat.zero_le _) (by omega)]
    rfl
  · intro Stmt p input
    have := runLines_calls_le p (splitlines input) (splitlines input)
      ⟨"", none, [], []⟩
    simpa [parseLines] using this

/-- Membership in the (possibly namespace-stripped) filtered builtin
list of `do_complete`, characterized by the builtin keys. -/
theorem mem_strip_filter (bn : List String) (nm m : String) :
    (m ∈ (if containsBacktick nm = true then
            bn.filter (fun k => startsWithStr k (qualify nm))
          else (bn.filter (fun k => startsWithStr k (qualify nm))).map
            (fun x => strDrop x sysNs.length))) ↔
      ∃ k, k ∈ bn ∧ startsWithStr k (qualify nm) = true ∧
        m = stripIfSynth nm k := by
  by_cases hb : containsBacktick nm = true
  · simp only [hb, if_true, List.mem_filter, stripIfSynth]
    constructor
    · rintro ⟨hk, hpred⟩
      exact ⟨m, hk, hpred, rfl⟩
    · rintro ⟨k, hk, hpred, rfl⟩
      exact ⟨hk, hpred⟩
  · have hb' : containsBacktick nm = false := by
      cases hcb : containsBacktick nm
      · rfl
      · exact absurd hcb hb
    simp only [hb', Bool.false_eq_true, if_false, List.mem_map,
      List.mem_filter, stripIfSynth]
    constructor
    · rintro ⟨k, ⟨hk, hpred⟩, hmk⟩
      exact ⟨k, hk, hpred, hmk.symm⟩
    · rintro ⟨k, hk, hpred, rfl⟩
      exact ⟨k, ⟨hk, hpred⟩, rfl⟩

/-- Claim C8: whenever the resolver finds a symbol, the matches returned
by `do_complete` are exactly the builtin keys whose fully-qualified form
starts with the resolved prefix — the prefix being qualified with the
default `System` namespace when the raw name contains no namespace
separator — and when that qualification was synthesized every returned
match has the default-namespace qualifier stripped back off. -/
theorem c8_completion_matches (bn : List String) (code : String)
    (cursor : Nat) (nm m : String)
    (h : (findSymbolName code cursor).2.2 = some nm) :
    ∃ ms, (doComplete bn code cursor).matchList = some ms ∧
      (m ∈ ms ↔ ∃ k, k ∈ bn ∧ startsWithStr k (qualify nm) = true ∧
        m = stripIfSynth nm k) := by
  rcases hfs : findSymbolName code cursor with ⟨sp, ep, nmo⟩
  rw [hfs] at h
  simp only at h
  subst h
  simp only [doComplete, hfs]
  exact ⟨_, rfl, mem_strip_filter bn nm m⟩

/-- Witness for C8: completing `Si` at cursor 2 against three builtin
keys produces the match `Sin`, with the synthesized `System` qualifier
stripped back off. -/
theorem c8_completion_matches_witness :
    (findSymbolName "Si" 2).2.2 = some "Si" ∧
      ∃ ms, (doComplete ["System`Sin", "System`Sqrt", "Global`Sin"]
          "Si" 2).matchList = some ms ∧
        ("Sin" ∈ ms ↔ ∃ k, k ∈ ["System`Sin", "System`Sqrt", "Global`Sin"] ∧
          startsWithStr k (qualify "Si") = true ∧ "Sin" = stripIfSynth "Si" k) :=
  ⟨by decide,
    c8_completion_matches ["System`Sin", "System`Sqrt", "Global`Sin"]
      "Si" 2 "Si" "Sin" (by decide)⟩

/-- Claim C10: whenever the resolver finds no symbol at the cursor, both
`do_inspect` and `do_complete` return a response whose status is `error`
and which carries no found flag, no documentation data and no matches —
not a found-false or empty-matches success response. -/
theorem c10_no_symbol_error (docs : List (String × String))
    (bn : List String) (code : String) (cursor : Nat)
    (h : (findSymbolName code cursor).2.2 = none) :
    doInspect docs code cursor = ⟨"error", none, none⟩ ∧
      doComplete bn code cursor = ⟨"error", none, none, none⟩ := by
  rcases hfs : findSymbolName code cursor with ⟨sp, ep, nmo⟩
  rw [hfs] at h
  simp only at h
  subst h
  constructor
  · simp [doInspect, hfs]
  · simp [doComplete, hfs]

/-- Witness for C10: the cursor sits past the end of `1`, the resolver
finds no symbol, and both handlers answer with the bare error
response. -/
theorem c10_no_symbol_error_witness :
    (findSymbolName "1" 5).2.2 = none ∧
      doInspect [] "1" 5 = ⟨"error", none, none⟩ ∧
      doComplete [] "1" 5 = ⟨"error", none, none, none⟩ :=
  ⟨by decide, c10_no_symbol_error [] [] "1" 5 (by decide)⟩

end IMathics
